import Mathlib

/-!
Verification of the maritime narrative pipeline (json_to_claude.py).

The development shallowly embeds the pure core of the program:
the fact classifier and fallback flattener (`extract_maritime_data`),
the prompt composer (`format_maritime_prompt`), the narrative segmenter
(`parse_location_narratives`) and the response assembler
(`create_response_json`).  Strings are modelled as lists of characters;
Python string primitives (strip, lower, split, join, replace, lstrip,
startswith, substring test) are given explicit executable definitions.
-/

namespace Maritime

/-- Strings are modelled as lists of characters. -/
abbrev Str := List Char

/-- Python str.lower, character by character. -/
def lowerStr (s : Str) : Str := s.map Char.toLower

/-- Whitespace predicate used by Python str.strip / lstrip(). -/
def wsChar (c : Char) : Bool := c.isWhitespace

/-- Python str.lstrip() (no argument: drop leading whitespace). -/
def lstripWs (s : Str) : Str := s.dropWhile wsChar

/-- Python str.lstrip(c) for a single-character argument. -/
def lstripCh (c : Char) (s : Str) : Str := s.dropWhile (fun d => d == c)

/-- Python str.strip(): drop leading and trailing whitespace. -/
def trimStr (s : Str) : Str := ((s.dropWhile wsChar).reverse.dropWhile wsChar).reverse

/-- Python str.split(sep) for a one-character separator; "".split(sep) = [""]. -/
def splitOnChar (sep : Char) : Str → List Str
  | [] => [[]]
  | c :: rest =>
    match splitOnChar sep rest with
    | [] => [[]]
    | x :: xs => if c == sep then [] :: x :: xs else (c :: x) :: xs

/-- Python sep.join(parts). -/
def joinWith (sep : Str) : List Str → Str
  | [] => []
  | [x] => x
  | x :: y :: rest => x ++ sep ++ joinWith sep (y :: rest)

/-- Boolean list-prefix test (Python str.startswith). -/
def isPrefixL : Str → Str → Bool
  | [], _ => true
  | _ :: _, [] => false
  | a :: as, b :: bs => a == b && isPrefixL as bs

/-- Python substring membership test `needle in hay`. -/
def containsSub (needle : Str) : Str → Bool
  | [] => needle.isEmpty
  | h :: t => isPrefixL needle (h :: t) || containsSub needle t

/-- Python s.endswith(c) for one character. -/
def endsWith (c : Char) (s : Str) : Bool :=
  match s.reverse with
  | [] => false
  | d :: _ => d == c

/-- Helper for `removeBold`: the flag records whether the previous character
was a so-far unmatched asterisk. -/
def removeBoldAux : Bool → Str → Str
  | pending, [] => if pending then ['*'] else []
  | pending, c :: rest =>
    if c == '*' then
      if pending then removeBoldAux false rest
      else removeBoldAux true rest
    else
      (if pending then ['*'] else []) ++ c :: removeBoldAux false rest

/-- Python s.replace(two asterisks, empty string): delete every
left-to-right non-overlapping pair of asterisks. -/
def removeBold (s : Str) : Str := removeBoldAux false s

/-- Decimal rendering of a list index, used when the source builds dotted
key paths such as parent[3]. -/
def natToChars (n : Nat) : Str := (Nat.repr n).data

/-- The input document: an arbitrary tree of mappings, sequences and
scalar leaves (JSON shape). -/
inductive JVal where
  | str (s : Str)
  | num (n : Int)
  | bool (b : Bool)
  | null
  | obj (fields : List (Str × JVal))
  | arr (items : List JVal)

/-- A detected location with its grouped weather and wave facts. -/
structure LocRec where
  name : Str
  weather : List Str
  waves : List Str
deriving DecidableEq

/-- The dataset passed from the classifier to the downstream stages. -/
structure Dataset where
  locations : List LocRec
deriving DecidableEq

/-- Keyword set used to recognize location names (WAYPOINT_KEYWORDS). -/
def WAYPOINT_KEYWORDS : List Str :=
  [("waypoint").data, ("buoy").data, ("destination").data, ("port").data,
   ("harbor").data, ("location").data, ("place").data, ("name").data,
   ("point").data]

/-- Keyword set used to recognize weather facts (WEATHER_KEYWORDS). -/
def WEATHER_KEYWORDS : List Str :=
  [("weather").data, ("wind").data, ("temperature").data, ("temp").data,
   ("pressure").data, ("humidity").data, ("visibility").data,
   ("condition").data, ("forecast").data]

/-- Keyword set used to recognize wave facts (WAVE_KEYWORDS). -/
def WAVE_KEYWORDS : List Str :=
  [("wave").data, ("swell").data, ("height").data, ("period").data,
   ("direction").data, ("sea").data, ("surf").data, ("tide").data,
   ("current").data]

/-- Python `any(keyword in key_lower for keyword in kws)`. -/
def matchesAny (kws : List Str) (keyLower : Str) : Bool :=
  kws.any (fun kw => containsSub kw keyLower)

/-- One "key: value.strip()" fact string. -/
def mkFact (k : Str) (v : Str) : Str := k ++ (": ").data ++ trimStr v

/-- Scalar-string children of a mapping that sits under a weather/wave key
(json_to_claude.py lines 83-89): strings with non-blank strip become
"sub_key: sub_value.strip()" facts; everything else is skipped. -/
def subStringFacts : List (Str × JVal) → List Str
  | [] => []
  | (k, JVal.str s) :: rest =>
    if trimStr s ≠ [] then mkFact k s :: subStringFacts rest
    else subStringFacts rest
  | _ :: rest => subStringFacts rest

/-- Per-node accumulator of `extract_location_data`: the node-local
location name, weather and wave fact lists, together with the shared
`locations` output list that the source threads through every call. -/
structure CState where
  name : Option Str
  weather : List Str
  waves : List Str
  locs : List LocRec
deriving DecidableEq

/-- The caller-side treatment of a nested recursion result
(json_to_claude.py `nested_result = extract_location_data(...)` followed by
`if nested_result: locations.extend(nested_result)`).  The Bool is true when
the callee returned the empty list (it emitted its own LocationRecord);
otherwise the callee returned the shared `locations` list itself, so a
non-empty result makes `extend` append the list to itself, doubling it. -/
def extendStep (p : List LocRec × Bool) : List LocRec :=
  if p.2 then p.1
  else if p.1 = [] then p.1 else p.1 ++ p.1

/-- End-of-node emission (json_to_claude.py lines 102-109): when the node
collected a name and at least one weather or wave fact, append one
LocationRecord to the shared list and signal an empty-list return with the
Bool flag. -/
def emitNode (st : CState) : List LocRec × Bool :=
  match st.name with
  | some nm =>
    if st.weather ≠ [] ∨ st.waves ≠ [] then
      (st.locs ++ [⟨nm, st.weather, st.waves⟩], true)
    else (st.locs, false)
  | none => (st.locs, false)

mutual
/-- Recursive pass of the classifier (`extract_location_data`).  Takes the
current shared `locations` list and returns the updated list together with
a flag that is true when this node emitted a LocationRecord and returned
the literal empty list (`return []  # avoid duplicate processing`).
The `parent_key` argument of the source is dropped: the primary pass never
reads it (classification uses only the immediate key). -/
def extract_location_data : JVal → List LocRec → List LocRec × Bool
  | JVal.obj fields, locs => emitNode (extract_pairs fields ⟨none, [], [], locs⟩)
  | JVal.arr items, locs => (extract_items items locs, false)
  | _, locs => (locs, false)

/-- The per-pair loop of a mapping node (json_to_claude.py lines 67-100). -/
def extract_pairs : List (Str × JVal) → CState → CState
  | [], st => st
  | (k, v) :: rest, st =>
    extract_pairs rest
      (match v with
       | JVal.str s =>
         if trimStr s ≠ [] then
           if matchesAny WAYPOINT_KEYWORDS (lowerStr k) then
             { st with name := some (trimStr s) }
           else if matchesAny WEATHER_KEYWORDS (lowerStr k) then
             { st with weather := st.weather ++ [mkFact k s] }
           else if matchesAny WAVE_KEYWORDS (lowerStr k) then
             { st with waves := st.waves ++ [mkFact k s] }
           else st
         else st
       | JVal.obj sub =>
         if matchesAny WEATHER_KEYWORDS (lowerStr k) then
           { st with weather := st.weather ++ subStringFacts sub }
         else if matchesAny WAVE_KEYWORDS (lowerStr k) then
           { st with waves := st.waves ++ subStringFacts sub }
         else
           { st with
             locs := extendStep (emitNode (extract_pairs sub ⟨none, [], [], st.locs⟩)) }
       | JVal.arr items => { st with locs := extract_items items st.locs }
       | _ => st)

/-- Iteration over sequence elements, with the shared-list extend logic
applied to every element's result (json_to_claude.py lines 95-100 and
111-115). -/
def extract_items : List JVal → List LocRec → List LocRec
  | [], locs => locs
  | item :: rest, locs =>
    extract_items rest (extendStep (extract_location_data item locs))
end

/-- Accumulators of the fallback flattener. -/
structure FState where
  wps : List Str
  weather : List Str
  waves : List Str
deriving DecidableEq

/-- Dotted path extension `parent.key` (or `key` at the root). -/
def dottedKey (parent k : Str) : Str :=
  if parent = [] then k else parent ++ ('.' :: k)

/-- Indexed path extension `parent[i]` (or `[i]` at the root). -/
def indexedKey (parent : Str) (i : Nat) : Str :=
  parent ++ '[' :: natToChars i ++ [']']

mutual
/-- Fallback flattener walk (`fallback_extract`): non-blank scalar strings
are classified by keyword match against the lower-cased full dotted key
path; every other value is recursed into. -/
def fallback_extract : JVal → Str → FState → FState
  | JVal.obj fields, parent, st => fb_pairs fields parent st
  | JVal.arr items, parent, st => fb_items items parent 0 st
  | _, _, st => st

/-- Pair loop of the fallback flattener (json_to_claude.py lines 130-142). -/
def fb_pairs : List (Str × JVal) → Str → FState → FState
  | [], _, st => st
  | (k, v) :: rest, parent, st =>
    fb_pairs rest parent
      (match v with
       | JVal.str s =>
         if trimStr s ≠ [] then
           let fullLower := lowerStr (dottedKey parent k)
           if matchesAny WAYPOINT_KEYWORDS fullLower then
             { st with wps := st.wps ++ [trimStr s] }
           else if matchesAny WEATHER_KEYWORDS fullLower then
             { st with weather := st.weather ++ [mkFact k s] }
           else if matchesAny WAVE_KEYWORDS fullLower then
             { st with waves := st.waves ++ [mkFact k s] }
           else st
         else st
       | v' => fallback_extract v' (dottedKey parent k) st)

/-- Sequence loop of the fallback flattener (json_to_claude.py
lines 143-145). -/
def fb_items : List JVal → Str → Nat → FState → FState
  | [], _, _, st => st
  | item :: rest, parent, i, st =>
    fb_items rest parent (i + 1) (fallback_extract item (indexedKey parent i) st)
end

/-- Top-level extraction (`extract_maritime_data`): run the recursive
classifier; if it produced no locations, run the fallback flattener and
emit one LocationRecord per discovered waypoint name, each carrying the
entire shared weather and wave fact lists. -/
def extract_maritime_data (d : JVal) : Dataset :=
  let locs := (extract_location_data d []).1
  if locs = [] then
    let st := fallback_extract d [] ⟨[], [], []⟩
    ⟨st.wps.map (fun w => ⟨w, st.weather, st.waves⟩)⟩
  else ⟨locs⟩

/-- One "LOCATION: name [WEATHER: ...] [WAVES: ...]" section of the prompt
(json_to_claude.py lines 169-178). -/
def locationSection (l : LocRec) : Str :=
  ("LOCATION: ").data ++ l.name
    ++ (if l.weather ≠ [] then (" WEATHER: ").data ++ joinWith [' '] l.weather
        else [])
    ++ (if l.waves ≠ [] then (" WAVES: ").data ++ joinWith [' '] l.waves
        else [])

/-- Prompt composer (`format_maritime_prompt`): optional prefix section
followed by one section per location, all joined by single spaces. -/
def format_maritime_prompt (maritime : Dataset) (pre : Str) : Str :=
  joinWith [' ']
    ((if pre ≠ [] then [pre] else []) ++ maritime.locations.map locationSection)

/-- A narrative attributed to one location by the segmenter. -/
structure NRec where
  location : Str
  narrative : Str
deriving DecidableEq

/-- The chained head cleanup `lstrip(':').lstrip('-').lstrip().lstrip(':').lstrip()`
applied after a location-name prefix has been removed. -/
def stripHeadPunct (s : Str) : Str :=
  lstripWs (lstripCh ':' (lstripWs (lstripCh '-' (lstripCh ':' s))))

/-- `clean_narrative_line`: drop bold markers, then, if the line starts with
the location name (case-insensitively), remove the name and the punctuation
after it; finally strip surrounding whitespace. -/
def clean_narrative_line (line locationName : Str) : Str :=
  let l := removeBold line
  let l :=
    if isPrefixL (lowerStr locationName) (lowerStr l) then
      stripHeadPunct (l.drop locationName.length)
    else l
  trimStr l

/-- First location whose name occurs case-insensitively anywhere in the
line (json_to_claude.py lines 210-214). -/
def findLoc (locs : List LocRec) (line : Str) : Option Str :=
  match locs with
  | [] => none
  | l :: rest =>
    if containsSub (lowerStr l.name) (lowerStr line) then some l.name
    else findLoc rest line

/-- State of the line-oriented primary segmentation pass. -/
structure PState where
  cur : Option Str
  buf : List Str
  out : List NRec
deriving DecidableEq

/-- Flush of the pending buffer: emit a record when the current location is
a non-empty name and the buffer is non-empty (Python
`if current_location and current_narrative`). -/
def flushBuf (st : PState) : List NRec :=
  match st.cur with
  | some c =>
    if c ≠ [] ∧ st.buf ≠ [] then st.out ++ [⟨c, joinWith [' '] st.buf⟩]
    else st.out
  | none => st.out

/-- One line of the primary pass (json_to_claude.py lines 204-235).  A found
name that is the empty string is falsy in the source and is treated like no
match at all. -/
def primStep (locs : List LocRec) (st : PState) (raw : Str) : PState :=
  let line := trimStr raw
  if line = [] then st
  else
    match findLoc locs line with
    | some nm =>
      if nm = [] then
        match st.cur with
        | some c => if c = [] then st else { st with buf := st.buf ++ [line] }
        | none => st
      else
        let cl := clean_narrative_line line nm
        { cur := some nm
          buf := if cl = [] then [] else [cl]
          out := flushBuf st }
    | none =>
      match st.cur with
      | some c => if c = [] then st else { st with buf := st.buf ++ [line] }
      | none => st

/-- The primary pass over all lines of the reply, including the final
flush (json_to_claude.py lines 200-243). -/
def primaryNarratives (reply : Str) (locs : List LocRec) : List NRec :=
  flushBuf ((splitOnChar '\n' (trimStr reply)).foldl (primStep locs) ⟨none, [], []⟩)

/-- Leading location-name cleanup of a fallback chunk: the first location
whose lower-cased name is a prefix of the chunk is stripped, then the
punctuation chain is applied (json_to_claude.py lines 259-262). -/
def fbPrefixClean (allLocs : List LocRec) (n : Str) : Str :=
  match allLocs with
  | [] => n
  | l :: rest =>
    if isPrefixL (lowerStr l.name) (lowerStr n) then
      stripHeadPunct (n.drop l.name.length)
    else fbPrefixClean rest n

/-- Record construction for fallback chunk number i (json_to_claude.py
lines 251-267): join the chunk's sentences, and if the result is non-blank,
clean it and append a trailing period when absent. -/
def fbRecord (sentences : List Str) (spl : Nat) (allLocs : List LocRec)
    (i : Nat) (loc : LocRec) : Option NRec :=
  let chunk := (sentences.drop (i * spl)).take spl
  let narrative := trimStr (joinWith ['.'] chunk)
  if narrative = [] then none
  else
    let n := fbPrefixClean allLocs (removeBold narrative)
    some ⟨loc.name, if endsWith '.' n then n else n ++ ['.']⟩

/-- The enumerated fallback loop over the locations list. -/
def fbLoop (sentences : List Str) (spl : Nat) (allLocs : List LocRec) :
    Nat → List LocRec → List NRec
  | _, [] => []
  | i, loc :: rest =>
    match fbRecord sentences spl allLocs i loc with
    | some r => r :: fbLoop sentences spl allLocs (i + 1) rest
    | none => fbLoop sentences spl allLocs (i + 1) rest

/-- Narrative segmenter (`parse_location_narratives`): the line-oriented
primary pass; if it emitted nothing and there are locations, the
sentence-split fallback with chunk size max(1, sentences // locations). -/
def parse_location_narratives (reply : Str) (locs : List LocRec) : List NRec :=
  let ns := primaryNarratives reply locs
  if ns = [] ∧ locs ≠ [] then
    let sentences := splitOnChar '.' reply
    fbLoop sentences (max 1 (sentences.length / locs.length)) locs 0 locs
  else ns

/-- A NarrativeRecord after the assembler's enrichment: optional weather
and wave fact lists attached from the matching LocationRecord. -/
structure EnrichedNRec where
  location : Str
  narrative : Str
  weather : Option (List Str)
  waves : Option (List Str)
deriving DecidableEq

/-- A NarrativeRecord as emitted by the segmenter, with no attached facts. -/
def plainNRec (n : NRec) : EnrichedNRec := ⟨n.location, n.narrative, none, none⟩

/-- Enrichment of one narrative from the first LocationRecord with exactly
the same name; empty fact lists are not attached (json_to_claude.py
lines 330-338). -/
def enrichOne (locs : List LocRec) (n : NRec) : EnrichedNRec :=
  match locs.find? (fun l => l.name = n.location) with
  | some l =>
    ⟨n.location, n.narrative,
     if l.weather ≠ [] then some l.weather else none,
     if l.waves ≠ [] then some l.waves else none⟩
  | none => plainNRec n

/-- The response envelope.  The nondeterministic wall-clock timestamp of
the source is not modelled; the remaining fields are. -/
structure Envelope where
  narratives : List EnrichedNRec
  model : Str
  locations_count : Nat
  status : Str
  error : Option Str
deriving DecidableEq

/-- Response assembler (`create_response_json`).  Enrichment runs only when
both a maritime dataset was passed (a non-None argument is truthy, even
with an empty locations list) and the narratives list is non-empty; the
error message is attached only when it is a non-empty string; the status
field is whatever the caller passed. -/
def create_response_json (narratives : List NRec) (model : Str)
    (_input_data : JVal) (maritime : Option Dataset) (status : Str)
    (error : Option Str) : Envelope :=
  let en :=
    match maritime with
    | some m =>
      if narratives ≠ [] then narratives.map (enrichOne m.locations)
      else narratives.map plainNRec
    | none => narratives.map plainNRec
  { narratives := en
    model := model
    locations_count := narratives.length
    status := status
    error := match error with
             | some e => if e ≠ [] then some e else none
             | none => none }

/-- A document that is neither a mapping nor a sequence. -/
def isScalar : JVal → Prop
  | JVal.obj _ => False
  | JVal.arr _ => False
  | _ => True

/-- Modelled from the spec: claim C6 as stated assigns to location i the
contiguous chunk of exactly floor(total / len(locations)) sentences
starting at index i * floor(total / len(locations)); record construction
for a chunk is the one of the source. -/
def fallbackChunksClaim (reply : Str) (locs : List LocRec) : List NRec :=
  let sentences := splitOnChar '.' reply
  let q := sentences.length / locs.length
  locs.enum.filterMap (fun p => fbRecord sentences q locs p.1 p.2)

/-- Modelled from the spec (amended): the fallback assigns to location i
the chunk of the sentence sequence starting at index i * s of length at
most s, where s = max 1 (total / len(locations)); chunks truncate at the
end of the sequence, and trailing remainder sentences are dropped. -/
def fallbackChunksAmended (reply : Str) (locs : List LocRec) : List NRec :=
  let sentences := splitOnChar '.' reply
  let s := max 1 (sentences.length / locs.length)
  locs.enum.filterMap (fun p => fbRecord sentences s locs p.1 p.2)

/-- The document of claims C1 (failing input): two plain mapping levels
above a qualifying location node. -/
def c1doc : JVal :=
  JVal.obj [(("a").data, JVal.obj [(("b").data, JVal.obj
    [(("waypoint").data, JVal.str (("X").data)),
     (("wind").data, JVal.str (("5 kn").data))])])]

/-- The LocationRecord that the single qualifying node of `c1doc` holds. -/
def c1rec : LocRec := ⟨("X").data, [("wind: 5 kn").data], []⟩

/-- The scenario document of claim C5. -/
def c5doc : JVal :=
  JVal.obj
    [(("waypoint").data, JVal.str (("Cape Cod Bay").data)),
     (("wind_speed").data, JVal.str (("12 knots").data)),
     (("wave_height").data, JVal.str (("3 feet").data))]

/-- The dataset that claim C5 expects. -/
def c5rec : LocRec :=
  ⟨("Cape Cod Bay").data, [("wind_speed: 12 knots").data],
   [("wave_height: 3 feet").data]⟩

/-- Records with non-empty narrative text. -/
def goodOut (out : List NRec) : Prop := ∀ r ∈ out, r.narrative ≠ []

/-- Invariant of the primary segmentation pass: all emitted records and
all buffered line fragments are non-empty. -/
def goodPS (st : PState) : Prop := goodOut st.out ∧ ∀ b ∈ st.buf, b ≠ []

/-- Joining a non-empty head keeps the result non-empty. -/
theorem joinWith_ne_nil {sep x : Str} {xs : List Str} (hx : x ≠ []) :
    joinWith sep (x :: xs) ≠ [] := by
  cases xs with
  | nil => simpa [joinWith] using hx
  | cons y ys =>
    cases x with
    | nil => exact absurd rfl hx
    | cons a t => simp [joinWith]

/-- A string that ends with a character is non-empty. -/
theorem endsWith_ne_nil {c : Char} {s : Str} (h : endsWith c s = true) :
    s ≠ [] := by
  intro he
  subst he
  simp [endsWith] at h

/-- Flushing a good state yields only non-empty narratives. -/
theorem flushBuf_good {st : PState} (h : goodPS st) : goodOut (flushBuf st) := by
  obtain ⟨ho, hb⟩ := h
  intro r hr
  unfold flushBuf at hr
  cases hc : st.cur with
  | none => simp only [hc] at hr; exact ho r hr
  | some c =>
    simp only [hc] at hr
    by_cases hcond : c ≠ [] ∧ st.buf ≠ []
    · rw [if_pos hcond] at hr
      rcases List.mem_append.mp hr with hr | hr
      · exact ho r hr
      · rcases List.mem_singleton.mp hr with rfl
        show joinWith [' '] st.buf ≠ []
        cases hbuf : st.buf with
        | nil => exact absurd hbuf hcond.2
        | cons b bs =>
          have hbne : b ≠ [] := hb b (by rw [hbuf]; exact List.mem_cons_self b bs)
          exact joinWith_ne_nil hbne
    · rw [if_neg hcond] at hr
      exact ho r hr

theorem primStep_good (locs : List LocRec) {st : PState} (h : goodPS st)
    (raw : Str) : goodPS (primStep locs st raw) := by
  obtain ⟨ho, hb⟩ := h
  simp only [primStep]
  by_cases hline : trimStr raw = []
  · rw [if_pos hline]; exact ⟨ho, hb⟩
  · rw [if_neg hline]
    have hbufext : goodPS { st with buf := st.buf ++ [trimStr raw] } := by
      refine ⟨ho, ?_⟩
      intro b hbm
      rcases List.mem_append.mp hbm with hbm | hbm
      · exact hb b hbm
      · rcases List.mem_singleton.mp hbm with rfl
        exact hline
    have hccase : goodPS (match st.cur with
        | some c => if c = [] then st else { st with buf := st.buf ++ [trimStr raw] }
        | none => st) := by
      have hopt : st.cur = none ∨ ∃ c, st.cur = some c := by
        cases st.cur
        · exact Or.inl rfl
        · exact Or.inr ⟨_, rfl⟩
      rcases hopt with hc | ⟨c, hc⟩
      · simp only [hc]; exact ⟨ho, hb⟩
      · simp only [hc]
        by_cases hce : c = []
        · rw [if_pos hce]; exact ⟨ho, hb⟩
        · rw [if_neg hce]; exact hbufext
    have hopt2 : findLoc locs (trimStr raw) = none ∨
        ∃ nm, findLoc locs (trimStr raw) = some nm := by
      cases findLoc locs (trimStr raw)
      · exact Or.inl rfl
      · exact Or.inr ⟨_, rfl⟩
    rcases hopt2 with hf | ⟨nm, hf⟩
    · simp only [hf]; exact hccase
    · simp only [hf]
      by_cases hnm : nm = []
      · rw [if_pos hnm]; exact hccase
      · rw [if_neg hnm]
        refine ⟨flushBuf_good ⟨ho, hb⟩, ?_⟩
        by_cases hcl : clean_narrative_line (trimStr raw) nm = []
        · rw [if_pos hcl]; intro b hbm; cases hbm
        · rw [if_neg hcl]
          intro b hbm
          rcases List.mem_singleton.mp hbm with rfl
          exact hcl

/-- The whole primary pass emits only non-empty narratives. -/
theorem primaryNarratives_good (reply : Str) (locs : List LocRec) :
    goodOut (primaryNarratives reply locs) := by
  unfold primaryNarratives
  apply flushBuf_good
  have hfold : ∀ (lines : List Str) (st : PState), goodPS st →
      goodPS (List.foldl (primStep locs) st lines) := by
    intro lines
    induction lines with
    | nil => intro st h; exact h
    | cons l ls ih => intro st h; exact ih _ (primStep_good locs h l)
  exact hfold _ _ ⟨fun r hr => absurd hr (List.not_mem_nil r),
                   fun b hbm => absurd hbm (List.not_mem_nil b)⟩

/-- A record built by the fallback has a non-empty narrative: blank chunks
are skipped before cleaning, and the appended trailing period keeps even a
cleaned-to-blank chunk non-empty. -/
theorem fbRecord_good {sentences : List Str} {spl : Nat}
    {allLocs : List LocRec} {i : Nat} {loc : LocRec} {r : NRec}
    (h : fbRecord sentences spl allLocs i loc = some r) : r.narrative ≠ [] := by
  simp only [fbRecord] at h
  split at h
  · exact absurd h (by simp)
  · obtain rfl := Option.some.inj h
    show (if endsWith '.' _ = true then _ else _) ≠ []
    split
    · next hend => exact endsWith_ne_nil hend
    · simp

/-- Every record the fallback loop emits has a non-empty narrative. -/
theorem fbLoop_good (sentences : List Str) (spl : Nat) (allLocs : List LocRec) :
    ∀ (l : List LocRec) (i : Nat), goodOut (fbLoop sentences spl allLocs i l) := by
  intro l
  induction l with
  | nil => intro i r hr; cases hr
  | cons loc rest ih =>
    intro i r hr
    cases hrec : fbRecord sentences spl allLocs i loc with
    | none =>
      rw [fbLoop, hrec] at hr
      exact ih (i + 1) r hr
    | some r0 =>
      rw [fbLoop, hrec] at hr
      rcases List.mem_cons.mp hr with rfl | hr
      · exact fbRecord_good hrec
      · exact ih (i + 1) r hr

/-- C1.  The recursive pass does NOT append each LocationRecord exactly
once: on a document whose qualifying node sits below two plain mapping
levels, `locations.extend(nested_result)` extends the shared list with an
alias of itself and the single qualifying node's record appears twice in
the result.  The code contradicts its own comment ("Return empty to avoid
duplicate processing"). -/
theorem C1_duplicate_record :
    extract_maritime_data c1doc = ⟨[c1rec, c1rec]⟩ ∧
    extract_maritime_data c1doc ≠ ⟨[c1rec]⟩ := by
  constructor
  · decide
  · decide

/-- C2, counterexample.  The round-trip reply of the claim is a single
line, so the line-oriented segmenter emits exactly ONE record whose
narrative still contains the second location's heading, not the two
records the claim describes. -/
theorem C2_counterexample :
    parse_location_narratives
        (("Alpha: sentence one. Bravo: sentence two.").data)
        [⟨("Alpha").data, [], []⟩, ⟨("Bravo").data, [], []⟩]
      = [⟨("Alpha").data, ("sentence one. Bravo: sentence two.").data⟩] ∧
    parse_location_narratives
        (("Alpha: sentence one. Bravo: sentence two.").data)
        [⟨("Alpha").data, [], []⟩, ⟨("Bravo").data, [], []⟩]
      ≠ [⟨("Alpha").data, ("sentence one.").data⟩,
         ⟨("Bravo").data, ("sentence two.").data⟩] := by
  constructor
  · decide
  · decide

/-- C3, counterexample.  Passing a non-empty narratives list together with
error = "timeout" (and the default status "success") yields an envelope
that keeps the narratives, counts them, and keeps status "success": the
assembler neither empties the narratives nor forces status to "error". -/
theorem C3_counterexample :
    create_response_json [⟨("Boston").data, ("Nice.").data⟩] (("m").data)
        JVal.null none (("success").data) (some (("timeout").data))
      ≠ ⟨[], ("m").data, 0, ("error").data, some (("timeout").data)⟩ := by
  decide

/-- C3, amended.  A non-empty error message is attached verbatim, but the
status field is simply the status argument (the pipeline boundary, not the
assembler, pairs error with status "error"); called as the pipeline calls
it on failure — narratives = [], status = "error" — the envelope is
narratives [], status "error", the verbatim message, and count 0. -/
theorem C3_amended (ns : List NRec) (model : Str) (input : JVal)
    (mar : Option Dataset) (status : Str) (e : Str) (he : e ≠ []) :
    (create_response_json ns model input mar status (some e)).error = some e ∧
    (create_response_json ns model input mar status (some e)).status = status ∧
    create_response_json [] model input mar (("error").data) (some e)
      = ⟨[], model, 0, ("error").data, some e⟩ := by
  refine ⟨?_, rfl, ?_⟩
  · simp [create_response_json, he]
  · cases mar <;> simp [create_response_json, he]

/-- C3, witness for the amended theorem. -/
theorem C3_witness :
    (create_response_json [] (("m").data) JVal.null none (("error").data)
        (some (("timeout").data))).error = some (("timeout").data) ∧
    (create_response_json [] (("m").data) JVal.null none (("error").data)
        (some (("timeout").data))).status = ("error").data ∧
    create_response_json [] (("m").data) JVal.null none (("error").data)
        (some (("timeout").data))
      = ⟨[], ("m").data, 0, ("error").data, some (("timeout").data)⟩ :=
  C3_amended [] (("m").data) JVal.null none (("error").data)
    (("timeout").data) (by decide)

/-- C4, counterexample.  When a location name recurs on a later line the
primary pass flushes one record per heading occurrence: a reply with three
headings over two locations yields three records, exceeding the length of
the locations list. -/
theorem C4_counterexample :
    ¬ (parse_location_narratives (("Alpha: x\nBravo: y\nAlpha: z").data)
          [⟨("Alpha").data, [], []⟩, ⟨("Bravo").data, [], []⟩]).length
        ≤ ([(⟨("Alpha").data, [], []⟩ : LocRec), ⟨("Bravo").data, [], []⟩]).length := by
  decide

/-- C5, counterexample.  On the scenario document the classifier's primary
recursive pass itself finds the location (waypoint/wind/wave keys all match
at the same node), so the locations list is non-empty and the fallback path
is NOT taken, contradicting the claim's "takes the fallback path". -/
theorem C5_counterexample :
    ¬ ((extract_location_data c5doc []).1 = [] ∧
       extract_maritime_data c5doc = ⟨[c5rec]⟩) := by
  decide

/-- C5, amended.  Extraction takes the primary path — the recursive
classifier itself returns the single record — and the resulting dataset is
exactly the one the claim lists. -/
theorem C5_amended :
    (extract_location_data c5doc []).1 = [c5rec] ∧
    extract_maritime_data c5doc = ⟨[c5rec]⟩ := by
  constructor
  · decide
  · decide

/-- C6, counterexample.  With reply "x" and two locations the sentence
count is 1, so floor(1/2) = 0 and the claim's rule would assign every
location an empty chunk and emit nothing; the code uses chunk size
max(1, floor) = 1 and emits one record for the first location. -/
theorem C6_counterexample :
    primaryNarratives (("x").data)
        [⟨("Alpha").data, [], []⟩, ⟨("Bravo").data, [], []⟩] = [] ∧
    parse_location_narratives (("x").data)
        [⟨("Alpha").data, [], []⟩, ⟨("Bravo").data, [], []⟩]
      = [⟨("Alpha").data, ("x.").data⟩] ∧
    fallbackChunksClaim (("x").data)
        [⟨("Alpha").data, [], []⟩, ⟨("Bravo").data, [], []⟩] = [] := by
  refine ⟨by decide, by decide, by decide⟩

/-- C7.  The classifier and fallback flattener are total and degrade
silently: a document that is neither a mapping nor a sequence yields the
empty dataset, and the composer applied to that output returns just the
caller's prefix; no component of the embedded core can raise. -/
theorem C7_never_raises (d : JVal) (h : isScalar d) (pre : Str) :
    extract_maritime_data d = ⟨[]⟩ ∧
    format_maritime_prompt (extract_maritime_data d) pre = pre := by
  have he : extract_maritime_data d = ⟨[]⟩ := by
    cases d with
    | str s => simp [extract_maritime_data, extract_location_data, fallback_extract]
    | num n => simp [extract_maritime_data, extract_location_data, fallback_extract]
    | bool b => simp [extract_maritime_data, extract_location_data, fallback_extract]
    | null => simp [extract_maritime_data, extract_location_data, fallback_extract]
    | obj fields => exact absurd h (by simp [isScalar])
    | arr items => exact absurd h (by simp [isScalar])
  refine ⟨he, ?_⟩
  rw [he]
  by_cases hp : pre = []
  · subst hp; rfl
  · simp [format_maritime_prompt, hp, joinWith]

/-- C7, witness: the null document with a concrete prefix. -/
theorem C7_witness :
    extract_maritime_data JVal.null = ⟨[]⟩ ∧
    format_maritime_prompt (extract_maritime_data JVal.null) (("go").data)
      = ("go").data :=
  C7_never_raises JVal.null trivial (("go").data)

/-- With an empty locations list one primary step never changes the empty
initial state. -/
theorem primStep_nil_locs (raw : Str) :
    primStep [] (⟨none, [], []⟩ : PState) raw = ⟨none, [], []⟩ := by
  simp only [primStep, findLoc]
  by_cases hline : trimStr raw = []
  · rw [if_pos hline]
  · rw [if_neg hline]

/-- C8.  With an empty locations list the segmenter returns the empty
sequence for every reply: no line can match a location, the final flush has
nothing to emit, and the fallback is skipped because `locations` is falsy. -/
theorem C8_empty_locations (reply : Str) :
    parse_location_narratives reply [] = [] := by
  have hfold : ∀ (lines : List Str),
      List.foldl (primStep []) (⟨none, [], []⟩ : PState) lines = ⟨none, [], []⟩ := by
    intro lines
    induction lines with
    | nil => rfl
    | cons l ls ih => rw [List.foldl_cons, primStep_nil_locs, ih]
  simp [parse_location_narratives, primaryNarratives, hfold, flushBuf]

/-- C9.  Every record the segmenter returns, on the primary path or the
fallback path, carries a non-empty narrative string. -/
theorem C9_nonempty_narratives (reply : Str) (locs : List LocRec) :
    ∀ r ∈ parse_location_narratives reply locs, r.narrative ≠ [] := by
  intro r hr
  unfold parse_location_narratives at hr
  by_cases hcond : primaryNarratives reply locs = [] ∧ locs ≠ []
  · rw [if_pos hcond] at hr
    exact fbLoop_good _ _ _ _ _ r hr
  · rw [if_neg hcond] at hr
    exact primaryNarratives_good reply locs r hr

/-- C9, witness: a concrete reply with one heading line. -/
theorem C9_witness :
    (⟨("Alpha").data, ("hi").data⟩ : NRec) ∈
      parse_location_narratives (("Alpha: hi").data) [⟨("Alpha").data, [], []⟩] ∧
    (⟨("Alpha").data, ("hi").data⟩ : NRec).narrative ≠ [] :=
  ⟨by decide,
   C9_nonempty_narratives (("Alpha: hi").data) [⟨("Alpha").data, [], []⟩]
     ⟨("Alpha").data, ("hi").data⟩ (by decide)⟩


/-- Flushing adds at most one record, and only when the buffer is
non-empty. -/
theorem flushBuf_len (st : PState) :
    (flushBuf st).length ≤ st.out.length + st.buf.length := by
  unfold flushBuf
  have hopt : st.cur = none ∨ ∃ c, st.cur = some c := by
    cases st.cur
    · exact Or.inl rfl
    · exact Or.inr ⟨_, rfl⟩
  rcases hopt with hc | ⟨c, hc⟩
  · simp [hc]
  · simp only [hc]
    by_cases hcond : c ≠ [] ∧ st.buf ≠ []
    · rw [if_pos hcond]
      have : 1 ≤ st.buf.length := List.length_pos.mpr hcond.2
      simp only [List.length_append, List.length_singleton]
      omega
    · rw [if_neg hcond]
      omega

/-- One primary step grows records-plus-buffer by at most one. -/
theorem primStep_len (locs : List LocRec) (st : PState) (raw : Str) :
    (primStep locs st raw).out.length + (primStep locs st raw).buf.length
      ≤ st.out.length + st.buf.length + 1 := by
  simp only [primStep]
  by_cases hline : trimStr raw = []
  · rw [if_pos hline]; omega
  · rw [if_neg hline]
    have hccase : (match st.cur with
        | some c => if c = [] then st else { st with buf := st.buf ++ [trimStr raw] }
        | none => st).out.length +
        (match st.cur with
        | some c => if c = [] then st else { st with buf := st.buf ++ [trimStr raw] }
        | none => st).buf.length ≤ st.out.length + st.buf.length + 1 := by
      have hopt : st.cur = none ∨ ∃ c, st.cur = some c := by
        cases st.cur
        · exact Or.inl rfl
        · exact Or.inr ⟨_, rfl⟩
      rcases hopt with hc | ⟨c, hc⟩
      · simp only [hc]; omega
      · simp only [hc]
        by_cases hce : c = []
        · rw [if_pos hce]; omega
        · rw [if_neg hce]
          simp only [List.length_append, List.length_singleton]
          omega
    have hopt2 : findLoc locs (trimStr raw) = none ∨
        ∃ nm, findLoc locs (trimStr raw) = some nm := by
      cases findLoc locs (trimStr raw)
      · exact Or.inl rfl
      · exact Or.inr ⟨_, rfl⟩
    rcases hopt2 with hf | ⟨nm, hf⟩
    · simp only [hf]; exact hccase
    · simp only [hf]
      by_cases hnm : nm = []
      · rw [if_pos hnm]; exact hccase
      · rw [if_neg hnm]
        have hflush : (flushBuf st).length ≤ st.out.length + st.buf.length := by
          unfold flushBuf
          have hopt : st.cur = none ∨ ∃ c, st.cur = some c := by
            cases st.cur
            · exact Or.inl rfl
            · exact Or.inr ⟨_, rfl⟩
          rcases hopt with hc | ⟨c, hc⟩
          · simp [hc]
          · simp only [hc]
            by_cases hcond : c ≠ [] ∧ st.buf ≠ []
            · rw [if_pos hcond]
              have : 1 ≤ st.buf.length := List.length_pos.mpr hcond.2
              simp only [List.length_append, List.length_singleton]
              omega
            · rw [if_neg hcond]
              omega
        by_cases hcl : clean_narrative_line (trimStr raw) nm = []
        · rw [if_pos hcl]
          simp only [List.length_nil]
          omega
        · rw [if_neg hcl]
          simp only [List.length_singleton]
          omega

/-- The primary fold grows records-plus-buffer by at most the number of
lines. -/
theorem primFold_len (locs : List LocRec) :
    ∀ (lines : List Str) (st : PState),
      (List.foldl (primStep locs) st lines).out.length +
        (List.foldl (primStep locs) st lines).buf.length
        ≤ st.out.length + st.buf.length + lines.length := by
  intro lines
  induction lines with
  | nil => intro st; simp
  | cons l ls ih =>
    intro st
    rw [List.foldl_cons]
    calc (List.foldl (primStep locs) (primStep locs st l) ls).out.length +
          (List.foldl (primStep locs) (primStep locs st l) ls).buf.length
        ≤ (primStep locs st l).out.length + (primStep locs st l).buf.length
            + ls.length := ih (primStep locs st l)
      _ ≤ st.out.length + st.buf.length + 1 + ls.length := by
            have := primStep_len locs st l
            omega
      _ = st.out.length + st.buf.length + (l :: ls).length := by
            simp [List.length_cons]
            omega

/-- The primary pass emits at most one record per line of the reply. -/
theorem primaryNarratives_len (reply : Str) (locs : List LocRec) :
    (primaryNarratives reply locs).length
      ≤ (splitOnChar '\n' (trimStr reply)).length := by
  unfold primaryNarratives
  calc (flushBuf (List.foldl (primStep locs) ⟨none, [], []⟩
          (splitOnChar '\n' (trimStr reply)))).length
      ≤ (List.foldl (primStep locs) ⟨none, [], []⟩
          (splitOnChar '\n' (trimStr reply))).out.length +
        (List.foldl (primStep locs) ⟨none, [], []⟩
          (splitOnChar '\n' (trimStr reply))).buf.length :=
        flushBuf_len _
    _ ≤ (0 : Nat) + 0 + (splitOnChar '\n' (trimStr reply)).length :=
        primFold_len locs _ _
    _ = (splitOnChar '\n' (trimStr reply)).length := by omega

/-- The fallback loop emits at most one record per location. -/
theorem fbLoop_len (sentences : List Str) (spl : Nat) (allLocs : List LocRec) :
    ∀ (l : List LocRec) (i : Nat),
      (fbLoop sentences spl allLocs i l).length ≤ l.length := by
  intro l
  induction l with
  | nil => intro i; simp [fbLoop]
  | cons loc rest ih =>
    intro i
    cases hrec : fbRecord sentences spl allLocs i loc with
    | none =>
      rw [fbLoop, hrec]
      calc (fbLoop sentences spl allLocs (i + 1) rest).length
          ≤ rest.length := ih (i + 1)
        _ ≤ (loc :: rest).length := by simp [List.length_cons]
    | some r0 =>
      rw [fbLoop, hrec]
      simpa [List.length_cons] using ih (i + 1)


/-- C4, amended.  The fallback path emits at most one record per location,
so its output length is bounded by the locations length; the primary path
may exceed the locations length when a location name recurs, but emits at
most one record per line of the reply; the total output is bounded by the
larger of the two. -/
theorem C4_amended (reply : Str) (locs : List LocRec) :
    (primaryNarratives reply locs).length
        ≤ (splitOnChar '\n' (trimStr reply)).length ∧
    (primaryNarratives reply locs = [] → locs ≠ [] →
      (parse_location_narratives reply locs).length ≤ locs.length) ∧
    (parse_location_narratives reply locs).length
        ≤ max locs.length (splitOnChar '\n' (trimStr reply)).length := by
  refine ⟨primaryNarratives_len reply locs, ?_, ?_⟩
  · intro h1 h2
    unfold parse_location_narratives
    rw [if_pos ⟨h1, h2⟩]
    exact fbLoop_len _ _ _ locs 0
  · unfold parse_location_narratives
    by_cases hcond : primaryNarratives reply locs = [] ∧ locs ≠ []
    · rw [if_pos hcond]
      exact le_max_of_le_left (fbLoop_len _ _ _ locs 0)
    · rw [if_neg hcond]
      exact le_max_of_le_right (primaryNarratives_len reply locs)

/-- C4, witness: the fallback bound at a concrete input. -/
theorem C4_witness :
    (parse_location_narratives (("x").data)
        [⟨("Alpha").data, [], []⟩, ⟨("Bravo").data, [], []⟩]).length
      ≤ ([(⟨("Alpha").data, [], []⟩ : LocRec), ⟨("Bravo").data, [], []⟩]).length :=
  (C4_amended (("x").data)
      [⟨("Alpha").data, [], []⟩, ⟨("Bravo").data, [], []⟩]).2.1
    (by decide) (by decide)

/-- The enumerated fallback loop is the filterMap of the record builder
over the index-paired suffix of the locations list. -/
theorem fbLoop_enumFrom (sentences : List Str) (spl : Nat)
    (allLocs : List LocRec) :
    ∀ (l : List LocRec) (i : Nat),
      fbLoop sentences spl allLocs i l
        = (List.enumFrom i l).filterMap
            (fun p => fbRecord sentences spl allLocs p.1 p.2) := by
  intro l
  induction l with
  | nil => intro i; rfl
  | cons loc rest ih =>
    intro i
    rw [fbLoop, List.enumFrom, List.filterMap]
    cases hrec : fbRecord sentences spl allLocs i loc with
    | none => rw [ih (i + 1)]
    | some r0 => rw [ih (i + 1)]

/-- C6, amended.  Whenever the fallback runs, the records are those of the
chunking rule with chunk size s = max 1 (floor(total / len(locations))):
location i receives the chunk starting at sentence index i * s of length at
most s (truncated at the end of the sequence), and trailing remainder
sentences are dropped. -/
theorem C6_amended (reply : Str) (locs : List LocRec)
    (h1 : primaryNarratives reply locs = []) (h2 : locs ≠ []) :
    parse_location_narratives reply locs = fallbackChunksAmended reply locs := by
  unfold parse_location_narratives fallbackChunksAmended
  rw [if_pos ⟨h1, h2⟩]
  rw [fbLoop_enumFrom]
  rfl

/-- C6, witness for the amended theorem at a concrete fallback input. -/
theorem C6_witness :
    parse_location_narratives (("x").data)
        [⟨("Alpha").data, [], []⟩, ⟨("Bravo").data, [], []⟩]
      = fallbackChunksAmended (("x").data)
        [⟨("Alpha").data, [], []⟩, ⟨("Bravo").data, [], []⟩] :=
  C6_amended (("x").data) [⟨("Alpha").data, [], []⟩, ⟨("Bravo").data, [], []⟩]
    (by decide) (by decide)


/-- C10.  A mapping value under a weather-matching key (or, failing that, a
wave-matching key) is flattened exactly one level: the classifier appends
precisely the facts built from its immediate scalar-string children with
non-blank strip — nested mappings, sequences and non-string leaves inside
it are never visited, contribute nothing, and the shared locations list is
untouched. -/
theorem C10_flatten_one_level (k : Str) (sub rest : List (Str × JVal))
    (st : CState) :
    (matchesAny WEATHER_KEYWORDS (lowerStr k) = true →
      extract_pairs ((k, JVal.obj sub) :: rest) st
        = extract_pairs rest
            { st with weather := st.weather ++ subStringFacts sub }) ∧
    (matchesAny WEATHER_KEYWORDS (lowerStr k) = false →
      matchesAny WAVE_KEYWORDS (lowerStr k) = true →
      extract_pairs ((k, JVal.obj sub) :: rest) st
        = extract_pairs rest
            { st with waves := st.waves ++ subStringFacts sub }) ∧
    subStringFacts sub = sub.filterMap (fun p =>
      match p.2 with
      | JVal.str s => if trimStr s = [] then none else some (mkFact p.1 s)
      | _ => none) := by
  refine ⟨?_, ?_, ?_⟩
  · intro h
    simp only [extract_pairs]
    rw [if_pos h]
  · intro h1 h2
    simp only [extract_pairs]
    rw [if_neg (by simp [h1]), if_pos h2]
  · induction sub with
    | nil => rfl
    | cons p rest' ih =>
      obtain ⟨k', v⟩ := p
      cases v with
      | str s =>
        by_cases hs : trimStr s = []
        · simp [subStringFacts, List.filterMap_cons, hs, ih]
        · simp [subStringFacts, List.filterMap_cons, hs, ih]
      | num n => simp [subStringFacts, List.filterMap_cons, ih]
      | bool b => simp [subStringFacts, List.filterMap_cons, ih]
      | null => simp [subStringFacts, List.filterMap_cons, ih]
      | obj f => simp [subStringFacts, List.filterMap_cons, ih]
      | arr i => simp [subStringFacts, List.filterMap_cons, ih]

/-- C10, witness: a weather-keyed mapping with one scalar child and one
nested mapping child. -/
theorem C10_witness :
    extract_pairs
        [(("weather").data, JVal.obj
            [(("wind").data, JVal.str (("5 kn").data)),
             (("deep").data, JVal.obj [(("waypoint").data, JVal.str (("X").data))])])]
        (⟨none, [], [], []⟩ : CState)
      = extract_pairs []
          { (⟨none, [], [], []⟩ : CState) with
            weather := [] ++ subStringFacts
              [(("wind").data, JVal.str (("5 kn").data)),
               (("deep").data, JVal.obj [(("waypoint").data, JVal.str (("X").data))])] } :=
  (C10_flatten_one_level (("weather").data)
      [(("wind").data, JVal.str (("5 kn").data)),
       (("deep").data, JVal.obj [(("waypoint").data, JVal.str (("X").data))])]
      [] (⟨none, [], [], []⟩ : CState)).1 (by decide)


/-- Strip is the identity when both ends survive dropWhile. -/
theorem trimStr_eq_self {l : Str} (ha : l.dropWhile wsChar = l)
    (hb : l.reverse.dropWhile wsChar = l.reverse) : trimStr l = l := by
  unfold trimStr
  rw [ha, hb, List.reverse_reverse]

/-- dropWhile stops at a head that fails the predicate. -/
theorem dropWhile_eq_self_of_head {p : Char → Bool} {a : Char} {l : Str}
    (h : p a = false) : (a :: l).dropWhile p = a :: l :=
  List.dropWhile_cons_of_neg (by simp [h])

/-- dropWhile on the reverse stops immediately when the last character
fails the predicate. -/
theorem reverse_dropWhile_eq_self {l : Str} {c : Char}
    (hl : l.getLast? = some c) (hc : wsChar c = false) :
    l.reverse.dropWhile wsChar = l.reverse := by
  cases hrev : l.reverse with
  | nil => rfl
  | cons d ds =>
    have h2 : l.getLast? = some d := by
      rw [← List.head?_reverse, hrev]
      rfl
    rw [hl] at h2
    obtain rfl := Option.some.inj h2
    exact dropWhile_eq_self_of_head hc

/-- A separator-free string splits to the singleton of itself. -/
theorem splitOnChar_single {sep : Char} : ∀ {l : Str},
    (∀ c ∈ l, (c == sep) = false) → splitOnChar sep l = [l] := by
  intro l
  induction l with
  | nil => intro _; rfl
  | cons c rest ih =>
    intro h
    have hr := ih (fun d hd => h d (List.mem_cons_of_mem c hd))
    have hc := h c (List.mem_cons_self c rest)
    simp only [splitOnChar, hr]
    rw [if_neg (by simp [hc])]

/-- Every list is a prefix of itself followed by anything. -/
theorem isPrefixL_append_self : ∀ (l t : Str), isPrefixL l (l ++ t) = true := by
  intro l t
  induction l with
  | nil => rfl
  | cons a as ih => simp [isPrefixL, ih]

/-- Prefixes are substrings. -/
theorem containsSub_of_isPrefixL : ∀ {n h : Str},
    isPrefixL n h = true → containsSub n h = true := by
  intro n h hp
  cases h with
  | nil =>
    cases n with
    | nil => rfl
    | cons a as => simp [isPrefixL] at hp
  | cons d ds => simp [containsSub, hp]

/-- An asterisk-free string is unchanged by bold removal. -/
theorem removeBoldAux_eq_self : ∀ {l : Str},
    (∀ c ∈ l, (c == '*') = false) → removeBoldAux false l = l := by
  intro l
  induction l with
  | nil => intro _; rfl
  | cons c rest ih =>
    intro h
    have hc := h c (List.mem_cons_self c rest)
    have hr := ih (fun d hd => h d (List.mem_cons_of_mem c hd))
    simp [removeBoldAux, hc, hr]

/-- An asterisk-free string is unchanged by bold removal. -/
theorem removeBold_eq_self {l : Str} (h : ∀ c ∈ l, (c == '*') = false) :
    removeBold l = l :=
  removeBoldAux_eq_self h

/-- The punctuation chain after a stripped name: one colon, one space, then
a regular character. -/
theorem stripHeadPunct_colon_space {c : Char} (X : Str)
    (h1 : (c == ':') = false) (h3 : wsChar c = false) :
    stripHeadPunct (':' :: ' ' :: c :: X) = c :: X := by
  unfold stripHeadPunct lstripCh lstripWs
  rw [List.dropWhile_cons_of_pos (by decide)]
  rw [List.dropWhile_cons_of_neg (by decide)]
  rw [List.dropWhile_cons_of_neg (by decide)]
  rw [List.dropWhile_cons_of_pos (by decide)]
  rw [List.dropWhile_cons_of_neg (by simp [h3])]
  rw [List.dropWhile_cons_of_neg (by simp [h1])]
  rw [List.dropWhile_cons_of_neg (by simp [h3])]



/-- C2, amended.  The claim's round-trip reply is one single line, so the
segmenter emits exactly one record: it is attributed to name1 (the first
location found on the line), the leading "name1:" is stripped, and the rest
of the line — including the "name2:" heading — is the narrative.  Names are
additionally assumed free of whitespace and asterisks so that stripping and
bold-removal leave them intact. -/
theorem C2_amended (name1 name2 : Str) (h1 : name1 ≠ []) (h2 : name2 ≠ [])
    (hs1 : containsSub name1 name2 = false)
    (hs2 : containsSub name2 name1 = false)
    (hg1 : ∀ c ∈ name1, c ≠ '.' ∧ c ≠ '\n' ∧ c ≠ '*' ∧ wsChar c = false)
    (hg2 : ∀ c ∈ name2, c ≠ '.' ∧ c ≠ '\n' ∧ c ≠ '*' ∧ wsChar c = false) :
    parse_location_narratives
        (name1 ++ ((": sentence one. ").data ++ (name2 ++ (": sentence two.").data)))
        [⟨name1, [], []⟩, ⟨name2, [], []⟩]
      = [⟨name1, ("sentence one. ").data ++ (name2 ++ (": sentence two.").data)⟩] := by
  obtain ⟨a0, n1tl, rfl⟩ := List.exists_cons_of_ne_nil h1
  have hws0 : wsChar a0 = false :=
    (hg1 a0 (List.mem_cons_self _ _)).2.2.2
  have hlast : ((a0 :: n1tl) ++ ((": sentence one. ").data
      ++ (name2 ++ (": sentence two.").data))).getLast? = some '.' := by
    rw [List.getLast?_append_of_ne_nil _ (by simp)]
    rw [List.getLast?_append_of_ne_nil _ (by simp)]
    rw [List.getLast?_append_of_ne_nil _ (by simp)]
    decide
  have htrimR : trimStr ((a0 :: n1tl) ++ ((": sentence one. ").data
      ++ (name2 ++ (": sentence two.").data)))
      = (a0 :: n1tl) ++ ((": sentence one. ").data
        ++ (name2 ++ (": sentence two.").data)) :=
    trimStr_eq_self (dropWhile_eq_self_of_head hws0)
      (reverse_dropWhile_eq_self hlast (by decide))
  have hnoNl : ∀ c ∈ (a0 :: n1tl) ++ ((": sentence one. ").data
      ++ (name2 ++ (": sentence two.").data)), (c == '\n') = false := by
    intro c hc
    rcases List.mem_append.mp hc with h | h
    · exact beq_eq_false_iff_ne.mpr (hg1 c h).2.1
    rcases List.mem_append.mp h with h | h
    · exact (by decide : ∀ x ∈ (": sentence one. ").data, (x == '\n') = false) c h
    rcases List.mem_append.mp h with h | h
    · exact beq_eq_false_iff_ne.mpr (hg2 c h).2.1
    · exact (by decide : ∀ x ∈ (": sentence two.").data, (x == '\n') = false) c h
  have hnoStar : ∀ c ∈ (a0 :: n1tl) ++ ((": sentence one. ").data
      ++ (name2 ++ (": sentence two.").data)), (c == '*') = false := by
    intro c hc
    rcases List.mem_append.mp hc with h | h
    · exact beq_eq_false_iff_ne.mpr (hg1 c h).2.2.1
    rcases List.mem_append.mp h with h | h
    · exact (by decide : ∀ x ∈ (": sentence one. ").data, (x == '*') = false) c h
    rcases List.mem_append.mp h with h | h
    · exact beq_eq_false_iff_ne.mpr (hg2 c h).2.2.1
    · exact (by decide : ∀ x ∈ (": sentence two.").data, (x == '*') = false) c h
  have hsplit : splitOnChar '\n' (trimStr ((a0 :: n1tl) ++ ((": sentence one. ").data
      ++ (name2 ++ (": sentence two.").data))))
      = [(a0 :: n1tl) ++ ((": sentence one. ").data
        ++ (name2 ++ (": sentence two.").data))] := by
    rw [htrimR]
    exact splitOnChar_single hnoNl
  have hlow : lowerStr ((a0 :: n1tl) ++ ((": sentence one. ").data
      ++ (name2 ++ (": sentence two.").data)))
      = lowerStr (a0 :: n1tl) ++ lowerStr ((": sentence one. ").data
        ++ (name2 ++ (": sentence two.").data)) := List.map_append _ _ _
  have hpre : isPrefixL (lowerStr (a0 :: n1tl))
      (lowerStr ((a0 :: n1tl) ++ ((": sentence one. ").data
        ++ (name2 ++ (": sentence two.").data)))) = true := by
    rw [hlow]
    exact isPrefixL_append_self _ _
  have hfind : findLoc [⟨a0 :: n1tl, [], []⟩, ⟨name2, [], []⟩]
      ((a0 :: n1tl) ++ ((": sentence one. ").data
        ++ (name2 ++ (": sentence two.").data))) = some (a0 :: n1tl) := by
    simp only [findLoc]
    rw [if_pos (containsSub_of_isPrefixL hpre)]
  have hdrop : ((a0 :: n1tl) ++ ((": sentence one. ").data
      ++ (name2 ++ (": sentence two.").data))).drop (a0 :: n1tl).length
      = (": sentence one. ").data ++ (name2 ++ (": sentence two.").data) :=
    List.drop_left _ _
  have hcast : (": sentence one. ").data ++ (name2 ++ (": sentence two.").data)
      = ':' :: ' ' :: 's' :: (("entence one. ").data
        ++ (name2 ++ (": sentence two.").data)) := rfl
  have hlastN : (("sentence one. ").data
      ++ (name2 ++ (": sentence two.").data)).getLast? = some '.' := by
    rw [List.getLast?_append_of_ne_nil _ (by simp)]
    rw [List.getLast?_append_of_ne_nil _ (by simp)]
    decide
  have htrimN : trimStr (("sentence one. ").data
      ++ (name2 ++ (": sentence two.").data))
      = ("sentence one. ").data ++ (name2 ++ (": sentence two.").data) :=
    trimStr_eq_self (dropWhile_eq_self_of_head (by decide))
      (reverse_dropWhile_eq_self hlastN (by decide))
  have hclean : clean_narrative_line
      ((a0 :: n1tl) ++ ((": sentence one. ").data
        ++ (name2 ++ (": sentence two.").data))) (a0 :: n1tl)
      = ("sentence one. ").data ++ (name2 ++ (": sentence two.").data) := by
    simp only [clean_narrative_line]
    rw [removeBold_eq_self hnoStar]
    rw [if_pos hpre]
    rw [hdrop, hcast]
    rw [stripHeadPunct_colon_space _ (by decide) (by decide)]
    exact htrimN
  have hRne : (a0 :: n1tl) ++ ((": sentence one. ").data
      ++ (name2 ++ (": sentence two.").data)) ≠ [] := by simp
  have hstep : primStep [⟨a0 :: n1tl, [], []⟩, ⟨name2, [], []⟩]
      (⟨none, [], []⟩ : PState)
      ((a0 :: n1tl) ++ ((": sentence one. ").data
        ++ (name2 ++ (": sentence two.").data)))
      = ⟨some (a0 :: n1tl),
         [("sentence one. ").data ++ (name2 ++ (": sentence two.").data)], []⟩ := by
    simp only [primStep, htrimR]
    rw [if_neg hRne]
    simp only [hfind]
    rw [if_neg h1]
    rw [hclean]
    rw [if_neg (by simp)]
    rfl
  have hprim : primaryNarratives
      ((a0 :: n1tl) ++ ((": sentence one. ").data
        ++ (name2 ++ (": sentence two.").data)))
      [⟨a0 :: n1tl, [], []⟩, ⟨name2, [], []⟩]
      = [⟨a0 :: n1tl,
          ("sentence one. ").data ++ (name2 ++ (": sentence two.").data)⟩] := by
    unfold primaryNarratives
    rw [hsplit, List.foldl_cons, hstep]
    simp only [List.foldl_nil, flushBuf]
    rw [if_pos ⟨h1, by simp⟩]
    rfl
  simp only [parse_location_narratives, hprim]
  rw [if_neg (by simp)]


/-- C2, witness for the amended theorem at the names Alpha and Bravo. -/
theorem C2_witness :
    parse_location_narratives
        ((("Alpha").data) ++ ((": sentence one. ").data
          ++ ((("Bravo").data) ++ (": sentence two.").data)))
        [⟨("Alpha").data, [], []⟩, ⟨("Bravo").data, [], []⟩]
      = [⟨("Alpha").data, ("sentence one. ").data
          ++ ((("Bravo").data) ++ (": sentence two.").data)⟩] :=
  C2_amended (("Alpha").data) (("Bravo").data) (by decide) (by decide)
    (by decide) (by decide) (by decide) (by decide)

end Maritime
